import Mathlib

/-!
Shallow embedding of the Gemini-Structurizer batch-cleaning pipeline
(`batch_clean.py`, `gemini_service.py`, `config.py`) and proofs about it.

The embedding models:
  * the JSON object returned for one record as an association list of
    field names to string values (`Dict`);
  * one attempt of the external service as an `ApiResponse` (raise an
    exception, malformed JSON, a JSON value that is not a list, or a
    JSON list of per-record results) and `GeminiService._call_api` as
    `callApi`;
  * the retry loop `GeminiService._call_api_with_retry` as `retryGo` /
    `callApiWithRetry`, which also records a trace of call and sleep
    events so that retry counts and backoff delays can be stated;
  * the batch slicing of `batch_clean.main` as `makeBatches`;
  * `process_batch` and the aggregation loop of `main` as
    `processBatch`, `sortByIndex` and `aggLoop`;
  * the semaphore-bounded concurrent dispatch as a small-step
    transition system (`schedStep` / `schedRun`).
-/

set_option linter.unusedVariables false

/-- A JSON object for one cleaned record: field name to string value,
as produced by `json.loads` in `gemini_service.py`. -/
abbrev Dict := List (String × String)

/-- The output column holding the original account string; the Python
source writes `result["原始账户名"] = acc` in `batch_clean.main`. -/
def origKey : String := "原始账户名"

/-- Python dict assignment `d[k] = v`: overwrite the value in place if
the key is present, otherwise append the new key at the end. -/
def dictSet (d : Dict) (k v : String) : Dict :=
  if d.any (fun p => p.1 == k) then
    d.map (fun p => if p.1 == k then (k, v) else p)
  else
    d ++ [(k, v)]

/-- One attempt's behaviour of the external Gemini call, as observed by
`GeminiService._call_api`: the network call (or `response.text`) raises;
the response text is not valid JSON (`json.JSONDecodeError`); the parsed
JSON is not a list; or it is a list of per-record results (`none`
models JSON `null`). -/
inductive ApiResponse where
  | exn (msg : String)
  | badJson
  | notList
  | list (results : List (Option Dict))

/-- `GeminiService._call_api` (gemini_service.py lines 120-151): an
exception propagates (`Except.error`); a JSON decode failure returns
`[None] * len(accounts)`; a parsed value that is not a list, or a list
whose length differs from `len(accounts)`, also returns
`[None] * len(accounts)`; a list of the right length is returned as is. -/
def callApi (accounts : List String) (r : ApiResponse) :
    Except String (List (Option Dict)) :=
  match r with
  | ApiResponse.exn msg => Except.error msg
  | ApiResponse.badJson => Except.ok (List.replicate accounts.length none)
  | ApiResponse.notList => Except.ok (List.replicate accounts.length none)
  | ApiResponse.list results =>
      if results.length = accounts.length then Except.ok results
      else Except.ok (List.replicate accounts.length none)

/-- Observable events of one run of the retry loop: an API call for a
given 0-based attempt number, or an `asyncio.sleep` for a duration in
seconds. -/
inductive Event where
  | callEv (attempt : Nat)
  | sleepEv (duration : ℚ)
deriving DecidableEq

/-- The body of `GeminiService._call_api_with_retry` (gemini_service.py
lines 107-118), iterating over the remaining attempt numbers of
`for attempt in range(self.max_retries)`.  A successful `_call_api`
returns immediately; an exception sleeps `retry_delay * 2 ** attempt`
and continues when `attempt < max_retries - 1`, and otherwise returns
`[None] * len(accounts)`.  The empty-list case is line 118's trailing
`return [None] * len(accounts)`.  The first component traces the calls
and sleeps in order. -/
def retryGo (accounts : List String) (sched : Nat → ApiResponse)
    (maxRetries : Nat) (d : ℚ) :
    List Nat → List Event × Except String (List (Option Dict))
  | [] => ([], Except.ok (List.replicate accounts.length none))
  | attempt :: rest =>
    match callApi accounts (sched attempt) with
    | Except.ok results => ([Event.callEv attempt], Except.ok results)
    | Except.error _ =>
      if attempt < maxRetries - 1 then
        let r := retryGo accounts sched maxRetries d rest
        (Event.callEv attempt :: Event.sleepEv (d * 2 ^ attempt) :: r.1, r.2)
      else
        ([Event.callEv attempt], Except.ok (List.replicate accounts.length none))

/-- `GeminiService._call_api_with_retry`: run the loop over attempts
`0, 1, ..., maxRetries - 1`, where `sched attempt` is the service's
behaviour on that attempt. -/
def callApiWithRetry (accounts : List String) (sched : Nat → ApiResponse)
    (maxRetries : Nat) (d : ℚ) :
    List Event × Except String (List (Option Dict)) :=
  retryGo accounts sched maxRetries d (List.range maxRetries)

/-- `GeminiService.clean_batch` minus the semaphore (the semaphore is
modelled separately as a transition system): just the value returned to
`process_batch`.  `Except.error` would be an exception propagating to
the caller. -/
def cleanBatch (accounts : List String) (sched : Nat → ApiResponse)
    (maxRetries : Nat) (d : ℚ) : Except String (List (Option Dict)) :=
  (callApiWithRetry accounts sched maxRetries d).2

/-- The `.ok` payload of `cleanBatch` (total helper; `cleanBatch` is
proved below to always be `.ok`). -/
def cleanResults (accounts : List String) (sched : Nat → ApiResponse)
    (maxRetries : Nat) (d : ℚ) : List (Option Dict) :=
  match cleanBatch accounts sched maxRetries d with
  | Except.ok rs => rs
  | Except.error _ => []

/-- The tuple `(batch_index, batch, results, error)` returned by
`process_batch` in batch_clean.py lines 30-36. -/
structure BatchResult where
  batchIndex : Nat
  batch : List String
  results : Option (List (Option Dict))
  error : Option String
deriving DecidableEq

/-- `process_batch` (batch_clean.py lines 30-36): try `clean_batch`,
returning `(i, batch, results, None)`; on an exception `e`, return
`(i, batch, None, str(e))`. -/
def processBatch (sched : Nat → ApiResponse) (batch : List String)
    (batchIndex : Nat) (maxRetries : Nat) (d : ℚ) : BatchResult :=
  match cleanBatch batch sched maxRetries d with
  | Except.ok results => ⟨batchIndex, batch, some results, none⟩
  | Except.error e => ⟨batchIndex, batch, none, some e⟩

/-- Python `range(0, stop, step)` for a positive step: the
`(stop + step - 1) / step` numbers `0, step, 2*step, ...` below `stop`. -/
def pyRange (stop step : Nat) : List Nat :=
  List.range' 0 ((stop + step - 1) / step) step

/-- The batch partition of batch_clean.py line 82:
`[accounts[i:i+B] for i in range(0, len(accounts), B)]`
(Python's `l[i:i+B]` is `(l.drop i).take B`). -/
def makeBatches (accounts : List String) (B : Nat) : List (List String) :=
  (pyRange accounts.length B).map (fun i => (accounts.drop i).take B)

/-- Batch_clean.py line 82 for an arbitrary integer batch size `B`.
Python's `range(0, n, B)` raises `ValueError` when `B = 0` (modelled as
`none`: the uncaught exception aborts the run before any batch is
built or dispatched) and yields no indices at all when `B < 0` and
`n ≥ 0`, so the comprehension produces an empty batch list. -/
def makeBatchesZ (accounts : List String) (B : Int) :
    Option (List (List String)) :=
  if B = 0 then none
  else if B < 0 then some []
  else some (makeBatches accounts B.toNat)

/-- The task list of batch_clean.py lines 86-89:
`[process_batch(gemini_service, batch, i) for i, batch in enumerate(batches)]`,
started at batch index `i`.  `sched i` is the service's behaviour for
batch `i` (one `ApiResponse` per attempt). -/
def dispatchAll (sched : Nat → Nat → ApiResponse) (maxRetries : Nat)
    (d : ℚ) : Nat → List (List String) → List BatchResult
  | _, [] => []
  | i, b :: bs =>
      processBatch (sched i) b i maxRetries d ::
        dispatchAll sched maxRetries d (i + 1) bs

/-- All batch outcomes, in the order `asyncio.gather` hands them back
when every task is listed at its own index (the canonical completion
order; claim C1 quantifies over arbitrary permutations of this list). -/
def canonicalResults (accounts : List String) (B : Nat)
    (sched : Nat → Nat → ApiResponse) (maxRetries : Nat) (d : ℚ) :
    List BatchResult :=
  dispatchAll sched maxRetries d 0 (makeBatches accounts B)

/-- Python truthiness of the `error` slot in `if error:` (batch_clean.py
line 102): `None` and the empty string are falsy. -/
def errTruthy : Option String → Bool
  | none => false
  | some e => e != ""

/-- The per-record body of the aggregation loop (batch_clean.py lines
108-114): a truthy result (`if result:` — a non-`None`, non-empty dict)
gets the original account written into it and no failure is recorded;
otherwise the row is the placeholder `{"原始账户名": acc}` and `acc`
is appended to `failed_accounts`. -/
def recordRow (acc : String) (r : Option Dict) : Dict × Option String :=
  match r with
  | some dct =>
      if dct.isEmpty then ([(origKey, acc)], some acc)
      else (dictSet dct origKey acc, none)
  | none => ([(origKey, acc)], some acc)

/-- The rows and failed accounts contributed by one successful batch:
`for acc, result in zip(batch, results)` over `recordRow`. -/
def batchRows (batch : List String) (results : List (Option Dict)) :
    List Dict × List String :=
  (((batch.zip results).map (fun p => recordRow p.1 p.2)).map Prod.fst,
   ((batch.zip results).map (fun p => recordRow p.1 p.2)).filterMap Prod.snd)

/-- The rows and failed accounts contributed by one tuple of the
aggregation loop (batch_clean.py lines 101-114).  When `error` is falsy
the loop iterates `zip(batch, results)`; if `results` were `None` there
Python would raise a `TypeError` (modelled as `none`). -/
def aggregateOne (br : BatchResult) : Option (List Dict × List String) :=
  if errTruthy br.error then
    some (br.batch.map (fun acc => [(origKey, acc)]), br.batch)
  else
    match br.results with
    | some rs => some (batchRows br.batch rs)
    | none => none

/-- Insertion into a list sorted by `batchIndex` (stable: an element is
placed before later elements with an equal index). -/
def insertByIndex (br : BatchResult) : List BatchResult → List BatchResult
  | [] => [br]
  | b :: bs =>
      if br.batchIndex ≤ b.batchIndex then br :: b :: bs
      else b :: insertByIndex br bs

/-- `sorted(batch_results, key=lambda x: x[0])` (batch_clean.py line
95): a stable sort by batch index, realised as insertion sort. -/
def sortByIndex : List BatchResult → List BatchResult
  | [] => []
  | b :: bs => insertByIndex b (sortByIndex bs)

/-- The aggregation loop over the sorted tuples, accumulating
`all_results` and `failed_accounts` batch by batch. -/
def aggLoop : List BatchResult → Option (List Dict × List String)
  | [] => some ([], [])
  | br :: rest => do
      let cur ← aggregateOne br
      let tl ← aggLoop rest
      pure (cur.1 ++ tl.1, cur.2 ++ tl.2)

/-- batch_clean.py lines 95-114: sort the gathered tuples by batch
index, then fold the aggregation loop.  The first component of the
result is `all_results` (the AggregatedResult), the second
`failed_accounts` (the FailureManifest). -/
def aggregate (brs : List BatchResult) :
    Option (List Dict × List String) :=
  aggLoop (sortByIndex brs)

/-- The whole pipeline on already-preprocessed accounts, in canonical
completion order: partition into batches, dispatch each, aggregate. -/
def runPipeline (accounts : List String) (B : Nat)
    (sched : Nat → Nat → ApiResponse) (maxRetries : Nat) (d : ℚ) :
    Option (List Dict × List String) :=
  aggregate (canonicalResults accounts B sched maxRetries d)

/-- A row of the AggregatedResult corresponds to an input record: it is
either the failure placeholder for that record or a structured result
tagged with the record's original string. -/
def rowCorresponds (acc : String) (row : Dict) : Prop :=
  row = [(origKey, acc)] ∨ ∃ dct : Dict, row = dictSet dct origKey acc

/-- The attempt numbers of the API calls in a trace, in order. -/
def callAttempts (evs : List Event) : List Nat :=
  evs.filterMap (fun e =>
    match e with
    | Event.callEv a => some a
    | Event.sleepEv _ => none)

/-- The sleep durations in a trace, in order. -/
def sleepDurations (evs : List Event) : List ℚ :=
  evs.filterMap (fun e =>
    match e with
    | Event.callEv _ => none
    | Event.sleepEv q => some q)

/-- Modelled from the spec's Retry Controller contract (§4.3): the
expected trace of a batch whose every attempt fails, starting at
attempt `a` with `n` attempts remaining — each call followed by a
backoff sleep of `d * 2 ^ attempt` seconds, except after the last. -/
def specRetryTrace (d : ℚ) : Nat → Nat → List Event
  | _, 0 => []
  | a, n + 1 =>
      if n = 0 then [Event.callEv a]
      else
        Event.callEv a :: Event.sleepEv (d * 2 ^ a) ::
          specRetryTrace d (a + 1) n

/-- Where a dispatch task stands in `GeminiService.clean_batch`:
not yet past `async with self.semaphore` (`waiting`); holding the
semaphore and about to issue `_call_api` for a given attempt
(`ready`); inside the `_call_api` await (`inCall`); inside the
`asyncio.sleep` backoff after a failed attempt (`sleepBackoff`); or
finished, semaphore released (`finished`). -/
inductive Phase where
  | waiting
  | ready (attempt : Nat)
  | inCall (attempt : Nat)
  | sleepBackoff (attempt : Nat)
  | finished
deriving DecidableEq

/-- Static data of one concurrent run: the semaphore bound
`MAX_CONCURRENT_REQUESTS`, `MAX_RETRIES`, the number of batch tasks,
and whether attempt `a` of task `t` raises an exception. -/
structure SchedCfg where
  bound : Nat
  maxRetries : Nat
  tasks : Nat
  callRaises : Nat → Nat → Bool

/-- Mutable state of a run: each task's phase, and the number of tasks
currently holding the semaphore. -/
structure SchedState where
  phases : List Phase
  holders : Nat
deriving DecidableEq

/-- All tasks created, none started, semaphore free. -/
def initState (cfg : SchedCfg) : SchedState :=
  ⟨List.replicate cfg.tasks Phase.waiting, 0⟩

/-- Scheduler actions: task `t` acquires the semaphore, enters its
`_call_api` await, returns from it, or wakes from its backoff sleep. -/
inductive SchedAction where
  | acquire (t : Nat)
  | startCall (t : Nat)
  | endCall (t : Nat)
  | wake (t : Nat)

/-- One small step of the concurrent system; `none` when the action is
not enabled.  `acquire` follows `async with self.semaphore` in
`clean_batch` (gemini_service.py lines 104-105): the semaphore is taken
once, before the retry loop, and released only when the loop returns
(`endCall` to `finished`); in particular a task in `sleepBackoff`
keeps holding it.  `endCall` mirrors `_call_api_with_retry`: a
non-raising call returns at once; a raising one sleeps when
`attempt < max_retries - 1` and otherwise returns `[None] * len`. -/
def schedStep (cfg : SchedCfg) (s : SchedState) : SchedAction → Option SchedState
  | SchedAction.acquire t =>
    match s.phases.get? t with
    | some Phase.waiting =>
        if s.holders < cfg.bound then
          some ⟨s.phases.set t (Phase.ready 0), s.holders + 1⟩
        else none
    | _ => none
  | SchedAction.startCall t =>
    match s.phases.get? t with
    | some (Phase.ready a) => some ⟨s.phases.set t (Phase.inCall a), s.holders⟩
    | _ => none
  | SchedAction.endCall t =>
    match s.phases.get? t with
    | some (Phase.inCall a) =>
        if cfg.callRaises t a then
          if a + 1 < cfg.maxRetries then
            some ⟨s.phases.set t (Phase.sleepBackoff a), s.holders⟩
          else
            some ⟨s.phases.set t Phase.finished, s.holders - 1⟩
        else some ⟨s.phases.set t Phase.finished, s.holders - 1⟩
    | _ => none
  | SchedAction.wake t =>
    match s.phases.get? t with
    | some (Phase.sleepBackoff a) =>
        some ⟨s.phases.set t (Phase.ready (a + 1)), s.holders⟩
    | _ => none

/-- Run a list of scheduler actions from the initial state; `none` as
soon as an action is not enabled. -/
def schedRun (cfg : SchedCfg) (acts : List SchedAction) : Option SchedState :=
  acts.foldlM (schedStep cfg) (initState cfg)

/-- Does this phase hold the semaphore (anywhere between `acquire` and
the end of the retry loop)? -/
def holdsSlot : Phase → Bool
  | Phase.ready _ => true
  | Phase.inCall _ => true
  | Phase.sleepBackoff _ => true
  | _ => false

/-- Is this phase inside the `_call_api` await? -/
def isInCall : Phase → Bool
  | Phase.inCall _ => true
  | _ => false

/-- Number of tasks currently holding the semaphore. -/
def countActive (ps : List Phase) : Nat := ps.countP holdsSlot

/-- Number of tasks currently inside a `transform` call. -/
def countInCall (ps : List Phase) : Nat := ps.countP isInCall

/-- The rows contributed per batch by the canonical pipeline, batch by
batch, starting at batch index `i` (each batch's `clean_batch` result
pushed through the success branch of the aggregation loop). -/
def pipeRowsFrom (sched : Nat → Nat → ApiResponse) (mr : Nat) (d : ℚ) :
    Nat → List (List String) → List (List Dict)
  | _, [] => []
  | i, b :: bs =>
      (batchRows b (cleanResults b (sched i) mr d)).1 ::
        pipeRowsFrom sched mr d (i + 1) bs

/-- The failed accounts contributed per batch by the canonical
pipeline, batch by batch, starting at batch index `i`. -/
def pipeFailsFrom (sched : Nat → Nat → ApiResponse) (mr : Nat) (d : ℚ) :
    Nat → List (List String) → List (List String)
  | _, [] => []
  | i, b :: bs =>
      (batchRows b (cleanResults b (sched i) mr d)).2 ::
        pipeFailsFrom sched mr d (i + 1) bs

/-- Concrete example input: three plausible account records. -/
def exAccounts : List String := ["aaaaaa-a", "bbbbbb-b", "cccccc-c"]

/-- Example service: batch 0 succeeds with one structured result and
one null, every other batch raises on every attempt. -/
def exSchedMixed : Nat → Nat → ApiResponse := fun i _ =>
  if i = 0 then ApiResponse.list [some [("x", "1")], none]
  else ApiResponse.exn "boom"

/-- Example service: every attempt raises. -/
def exSchedFail : Nat → ApiResponse := fun _ => ApiResponse.exn "boom"

/-- Example service: the first attempt returns a wrong-length (empty)
list; every later attempt would return a correctly-sized result. -/
def exSchedWrongLen : Nat → ApiResponse := fun n =>
  if n = 0 then ApiResponse.list []
  else ApiResponse.list [some [("k", "v")]]

/-- Example service: every call succeeds with a correctly-sized list
whose single entry is null. -/
def exSchedNull : Nat → Nat → ApiResponse := fun _ _ =>
  ApiResponse.list [none]

/-- Example service: every batch's first attempt succeeds with
correctly-sized, non-null, non-empty structured results (for
`exAccounts` split with batch size 2). -/
def exSchedGood : Nat → Nat → ApiResponse := fun k _ =>
  if k = 0 then ApiResponse.list [some [("名称", "a")], some [("名称", "b")]]
  else ApiResponse.list [some [("名称", "c")]]

/-- Example scheduler configuration: semaphore bound 1, two retries,
two batch tasks, every call raises. -/
def exCfg : SchedCfg := ⟨1, 2, 2, fun _ _ => true⟩

/-- Example schedule: task 0 acquires the semaphore, performs its first
call, fails, and enters its backoff sleep. -/
def exActs : List SchedAction :=
  [SchedAction.acquire 0, SchedAction.startCall 0, SchedAction.endCall 0]

/-- A non-raising `_call_api` always returns a list of exactly
`len(accounts)` entries. -/
theorem callApi_length (accounts : List String) (r : ApiResponse)
    (rs : List (Option Dict)) (h : callApi accounts r = Except.ok rs) :
    rs.length = accounts.length := by
  cases r with
  | exn msg => simp [callApi] at h
  | badJson =>
      simp [callApi] at h
      simp [← h]
  | notList =>
      simp [callApi] at h
      simp [← h]
  | list results =>
      by_cases hl : results.length = accounts.length
      · simp [callApi, hl] at h
        rw [← h]; exact hl
      · simp [callApi, hl] at h
        simp [← h]

/-- The retry loop never lets an exception escape and always returns a
list of exactly `len(accounts)` entries, for any list of remaining
attempts. -/
theorem retryGo_ok (accounts : List String) (sched : Nat → ApiResponse)
    (mr : Nat) (d : ℚ) (attempts : List Nat) :
    ∃ rs, (retryGo accounts sched mr d attempts).2 = Except.ok rs ∧
      rs.length = accounts.length := by
  induction attempts with
  | nil => exact ⟨_, rfl, List.length_replicate ..⟩
  | cons attempt rest ih =>
    cases hc : callApi accounts (sched attempt) with
    | ok results =>
        refine ⟨results, ?_, callApi_length _ _ _ hc⟩
        simp [retryGo, hc]
    | error msg =>
        by_cases hlt : attempt < mr - 1
        · obtain ⟨rs, h1, h2⟩ := ih
          refine ⟨rs, ?_, h2⟩
          simp [retryGo, hc, hlt, h1]
        · refine ⟨List.replicate accounts.length none, ?_, List.length_replicate ..⟩
          simp [retryGo, hc, hlt]

/-- C10: for every input list of account strings and every behaviour of
the external service on every attempt (success, malformed JSON, a
non-list or wrong-length response, or a raised exception), `clean_batch`
returns (never raises) a list of exactly `len(accounts)` entries, and
consequently `process_batch` always takes its success branch: its
`error` slot is `None` and the exception branch is unreachable. -/
theorem cleanBatch_total_and_sized (accounts : List String)
    (sched : Nat → ApiResponse) (mr : Nat) (d : ℚ) :
    ∃ rs, cleanBatch accounts sched mr d = Except.ok rs ∧
      rs.length = accounts.length ∧
      ∀ i, processBatch sched accounts i mr d = ⟨i, accounts, some rs, none⟩ := by
  obtain ⟨rs, h1, h2⟩ := retryGo_ok accounts sched mr d (List.range mr)
  refine ⟨rs, h1, h2, fun i => ?_⟩
  simp [processBatch, cleanBatch, callApiWithRetry, h1]

/-- Unfolding lemma: the expected all-fail trace with at least two
attempts remaining starts with a call and its backoff sleep. -/
theorem specRetryTrace_two (d : ℚ) (a n : Nat) :
    specRetryTrace d a (n + 2) =
      Event.callEv a :: Event.sleepEv (d * 2 ^ a) ::
        specRetryTrace d (a + 1) (n + 1) := rfl

/-- When every attempt raises, the retry loop over attempts
`a, a+1, ..., a+n-1` (with `a + n = maxRetries`, `n ≥ 1`) produces the
trace of § 4.3 — each call followed by a backoff sleep of
`d * 2 ^ attempt`, except after the last — and returns
`[None] * len(accounts)`. -/
theorem retryGo_allFail (accounts : List String) (sched : Nat → ApiResponse)
    (mr : Nat) (d : ℚ)
    (hfail : ∀ k, k < mr → ∃ m, sched k = ApiResponse.exn m) :
    ∀ n a, a + n = mr → 1 ≤ n →
      retryGo accounts sched mr d (List.range' a n) =
        (specRetryTrace d a n,
         Except.ok (List.replicate accounts.length none)) := by
  intro n
  induction n with
  | zero => intro a hsum hone; omega
  | succ n ih =>
    intro a hsum hone
    obtain ⟨m, hm⟩ := hfail a (by omega)
    cases n with
    | zero =>
        have hnot : ¬ a < mr - 1 := by omega
        simp [List.range'_one, retryGo, callApi, hm, hnot, specRetryTrace]
    | succ n' =>
        have hlt : a < mr - 1 := by omega
        have ihh := ih (a + 1) (by omega) (by omega)
        rw [List.range'_succ]
        generalize hR : List.range' (a + 1) (n' + 1) = rest at ihh ⊢
        simp only [retryGo, hm, callApi]
        rw [if_pos hlt, ihh, show n' + 1 + 1 = n' + 2 from rfl,
          specRetryTrace_two]

/-- `_call_api_with_retry` on a batch whose every attempt raises:
the full trace and the `[None] * len(accounts)` return value. -/
theorem callApiWithRetry_allFail (accounts : List String)
    (sched : Nat → ApiResponse) (mr : Nat) (d : ℚ) (hmr : 1 ≤ mr)
    (hfail : ∀ k, k < mr → ∃ m, sched k = ApiResponse.exn m) :
    callApiWithRetry accounts sched mr d =
      (specRetryTrace d 0 mr,
       Except.ok (List.replicate accounts.length none)) := by
  rw [callApiWithRetry, List.range_eq_range']
  exact retryGo_allFail accounts sched mr d hfail mr 0 (by omega) hmr

/-- The call events of the expected all-fail trace are exactly the
attempts `a, a+1, ..., a+n-1`, in order. -/
theorem callAttempts_specRetryTrace (d : ℚ) :
    ∀ n a, callAttempts (specRetryTrace d a n) = List.range' a n := by
  intro n
  induction n with
  | zero => intro a; simp [specRetryTrace, callAttempts]
  | succ n ih =>
      intro a
      cases n with
      | zero => simp [specRetryTrace, callAttempts, List.range'_one]
      | succ n' =>
          rw [List.range'_succ]
          simp only [specRetryTrace]
          simp [callAttempts, List.filterMap_cons] at ih ⊢
          exact ih (a + 1)

/-- The sleep durations of the expected all-fail trace are
`d * 2 ^ a, d * 2 ^ (a+1), ..., d * 2 ^ (a+n-2)`, in order. -/
theorem sleepDurations_specRetryTrace (d : ℚ) :
    ∀ n a, sleepDurations (specRetryTrace d a n) =
      (List.range' a (n - 1)).map (fun k => d * 2 ^ k) := by
  intro n
  induction n with
  | zero => intro a; simp [specRetryTrace, sleepDurations]
  | succ n ih =>
      intro a
      cases n with
      | zero => simp [specRetryTrace, sleepDurations]
      | succ n' =>
          have hh := ih (a + 1)
          rw [specRetryTrace_two,
            show n' + 1 + 1 - 1 = n' + 1 from rfl, List.range'_succ]
          simp [sleepDurations, List.filterMap_cons] at hh ⊢
          exact hh

/-- C4: for a batch whose every attempt fails, the retry loop makes
exactly `maxRetries` `_call_api` attempts, strictly sequentially (the
whole trace is the sequential § 4.3 trace), waiting
`RETRY_DELAY * 2 ^ attempt` seconds before the `(attempt+1)`-th retry,
and the inter-attempt delays are monotonically non-decreasing. -/
theorem retry_count_and_backoff (accounts : List String)
    (sched : Nat → ApiResponse) (mr : Nat) (d : ℚ) (hmr : 1 ≤ mr)
    (hd : 0 ≤ d)
    (hfail : ∀ k, k < mr → ∃ m, sched k = ApiResponse.exn m) :
    (callApiWithRetry accounts sched mr d).1 = specRetryTrace d 0 mr ∧
    callAttempts (callApiWithRetry accounts sched mr d).1 =
      List.range mr ∧
    sleepDurations (callApiWithRetry accounts sched mr d).1 =
      (List.range (mr - 1)).map (fun k => d * 2 ^ k) ∧
    (sleepDurations (callApiWithRetry accounts sched mr d).1).Pairwise
      (· ≤ ·) := by
  have htr := callApiWithRetry_allFail accounts sched mr d hmr hfail
  have h1 : (callApiWithRetry accounts sched mr d).1 =
      specRetryTrace d 0 mr := by rw [htr]
  refine ⟨h1, ?_, ?_, ?_⟩
  · rw [h1, callAttempts_specRetryTrace, List.range_eq_range']
  · rw [h1, sleepDurations_specRetryTrace, List.range_eq_range']
  · rw [h1, sleepDurations_specRetryTrace]
    refine List.Pairwise.map _ ?_
      (List.pairwise_lt_range' 0 (mr - 1) 1 (by omega))
    intro i j hij
    exact mul_le_mul_of_nonneg_left
      (pow_le_pow_right₀ (by norm_num) (le_of_lt hij)) hd

/-- C6 (amended): for a batch whose every attempt raises, the retry
routine returns normally with the data value `[None] * len(accounts)`
— no exception escapes the retry loop — and the tuple `process_batch`
hands to the aggregator has `error = None` (the per-attempt reasons are
only printed, not attached to the outcome). -/
theorem retry_exhaustion_returns_value (accounts : List String)
    (sched : Nat → ApiResponse) (mr : Nat) (d : ℚ) (hmr : 1 ≤ mr)
    (hfail : ∀ k, k < mr → ∃ m, sched k = ApiResponse.exn m) :
    cleanBatch accounts sched mr d =
      Except.ok (List.replicate accounts.length none) ∧
    ∀ i, processBatch sched accounts i mr d =
      ⟨i, accounts, some (List.replicate accounts.length none), none⟩ := by
  have htr := callApiWithRetry_allFail accounts sched mr d hmr hfail
  have h2 : cleanBatch accounts sched mr d =
      Except.ok (List.replicate accounts.length none) := by
    rw [cleanBatch, htr]
  exact ⟨h2, fun i => by simp [processBatch, h2]⟩

/-- C2 (amended): a `_call_api` attempt that completes without raising
but produces a result list of the wrong length does NOT behave like a
`ServiceError`: the retry loop stops at attempt 0 with no backoff sleep
and no further attempt, returning `[None] * len(accounts)` at once. -/
theorem wrong_length_no_retry (accounts : List String)
    (rs : List (Option Dict)) (sched : Nat → ApiResponse) (mr : Nat)
    (d : ℚ) (hmr : 1 ≤ mr) (h0 : sched 0 = ApiResponse.list rs)
    (hlen : rs.length ≠ accounts.length) :
    callApiWithRetry accounts sched mr d =
      ([Event.callEv 0], Except.ok (List.replicate accounts.length none)) := by
  rw [callApiWithRetry, List.range_eq_range',
    show mr = (mr - 1) + 1 by omega, List.range'_succ]
  simp [retryGo, h0, callApi, hlen]

/-- Inserting into a list is a permutation of consing. -/
theorem insertByIndex_perm (br : BatchResult) (l : List BatchResult) :
    (insertByIndex br l).Perm (br :: l) := by
  induction l with
  | nil => simp [insertByIndex]
  | cons b bs ih =>
      by_cases h : br.batchIndex ≤ b.batchIndex
      · simp [insertByIndex, h]
      · simp only [insertByIndex, if_neg h]
        exact (ih.cons b).trans (List.Perm.swap br b bs)

/-- The sort of batch_clean.py line 95 permutes its input. -/
theorem sortByIndex_perm (l : List BatchResult) :
    (sortByIndex l).Perm l := by
  induction l with
  | nil => simp [sortByIndex]
  | cons b bs ih =>
      exact (insertByIndex_perm b (sortByIndex bs)).trans (ih.cons b)

/-- Insertion preserves sortedness by batch index. -/
theorem insertByIndex_pairwise (br : BatchResult) (l : List BatchResult)
    (h : l.Pairwise (fun x y => x.batchIndex ≤ y.batchIndex)) :
    (insertByIndex br l).Pairwise
      (fun x y => x.batchIndex ≤ y.batchIndex) := by
  induction l with
  | nil => simp [insertByIndex]
  | cons b bs ih =>
      rw [List.pairwise_cons] at h
      obtain ⟨hb, hbs⟩ := h
      by_cases hle : br.batchIndex ≤ b.batchIndex
      · rw [insertByIndex, if_pos hle, List.pairwise_cons]
        refine ⟨?_, List.pairwise_cons.mpr ⟨hb, hbs⟩⟩
        intro x hx
        rcases List.mem_cons.mp hx with h1 | h2
        · rw [h1]; exact hle
        · exact le_trans hle (hb x h2)
      · rw [insertByIndex, if_neg hle, List.pairwise_cons]
        refine ⟨?_, ih hbs⟩
        intro x hx
        rcases List.mem_cons.mp ((insertByIndex_perm br bs).mem_iff.mp hx)
          with h1 | h2
        · rw [h1]; omega
        · exact hb x h2

/-- The sort of batch_clean.py line 95 is sorted by batch index. -/
theorem sortByIndex_pairwise (l : List BatchResult) :
    (sortByIndex l).Pairwise (fun x y => x.batchIndex ≤ y.batchIndex) := by
  induction l with
  | nil => simp [sortByIndex]
  | cons b bs ih => exact insertByIndex_pairwise b (sortByIndex bs) ih

/-- A list sorted (≤) by batch index that is a permutation of a list
strictly sorted (<) by batch index is equal to it. -/
theorem sorted_perm_strict_eq :
    ∀ (c l : List BatchResult), l.Perm c →
      l.Pairwise (fun x y => x.batchIndex ≤ y.batchIndex) →
      c.Pairwise (fun x y => x.batchIndex < y.batchIndex) →
      l = c := by
  intro c
  induction c with
  | nil => intro l hp _ _; exact hp.eq_nil
  | cons a c' ih =>
      intro l hp hle hlt
      cases l with
      | nil => exact absurd hp.symm.eq_nil (by simp)
      | cons b t =>
          rw [List.pairwise_cons] at hle hlt
          have hba : b = a := by
            rcases List.mem_cons.mp (hp.subset (List.mem_cons_self b t))
              with h1 | h2
            · exact h1
            · rcases List.mem_cons.mp
                (hp.symm.subset (List.mem_cons_self a c')) with g1 | g2
              · exact g1.symm
              · have h3 := hle.1 a g2
                have h4 := hlt.1 b h2
                exact absurd h4 (by omega)
          subst hba
          have ht := hp.cons_inv
          rw [ih t ht hle.2 hlt.2]

/-- Reindexing the slice starts: slices of `l` starting at `s + B` are
slices of `l.drop B` starting at `s`. -/
theorem slice_shift (l : List String) (B : Nat) :
    ∀ k s, (List.range' (s + B) k B).map (fun i => (l.drop i).take B) =
      (List.range' s k B).map (fun i => ((l.drop B).drop i).take B) := by
  intro k
  induction k with
  | zero => intro s; simp
  | succ k ih =>
      intro s
      rw [List.range'_succ, List.range'_succ]
      simp only [List.map_cons]
      refine congrArg₂ _ ?_ ?_
      · rw [List.drop_drop, Nat.add_comm]
      · exact ih (s + B)

/-- Concatenating the `B`-sized slices of `l` starting at
`0, B, 2B, ...` recovers `l`, provided enough slices are taken. -/
theorem join_slices (B : Nat) (hB : 0 < B) :
    ∀ k (l : List String), l.length ≤ k * B →
      ((List.range' 0 k B).map (fun i => (l.drop i).take B)).flatten = l := by
  intro k
  induction k with
  | zero =>
      intro l h
      have : l = [] := List.eq_nil_of_length_eq_zero (by omega)
      simp [this]
  | succ k ih =>
      intro l h
      rw [List.range'_succ]
      simp only [List.map_cons, List.flatten_cons, List.drop_zero]
      have hs := slice_shift l B k 0
      rw [Nat.zero_add] at hs
      have hd : (l.drop B).length ≤ k * B := by
        rw [List.length_drop]
        have : l.length ≤ k * B + B := by
          rw [Nat.succ_mul] at h
          exact h
        omega
      rw [Nat.zero_add, hs, ih (l.drop B) hd]
      exact List.take_append_drop B l

/-- The ceiling count of Python's `range(0, n, B)` covers `n` items. -/
theorem pyRange_covers (n B : Nat) (hB : 0 < B) :
    n ≤ (n + B - 1) / B * B := by
  have hdm := Nat.div_add_mod (n + B - 1) B
  have hml := Nat.mod_lt (n + B - 1) hB
  rw [Nat.mul_comm]
  omega

/-- Every start index produced by `range(0, n, B)` is below `n`. -/
theorem pyRange_mem_lt (n B i : Nat) (hB : 0 < B)
    (hi : i ∈ pyRange n B) : i < n := by
  rw [pyRange, List.mem_range'] at hi
  obtain ⟨j, hj, rfl⟩ := hi
  have hdm := Nat.div_add_mod (n + B - 1) B
  have hml := Nat.mod_lt (n + B - 1) hB
  have hjk : B * (j + 1) ≤ B * ((n + B - 1) / B) :=
    Nat.mul_le_mul_left B hj
  rw [Nat.mul_succ] at hjk
  omega

/-- C5: for every positive batch size `B`, the slicing of
batch_clean.py line 82 yields batches of size exactly `B` except
possibly the last, every batch has size in `[1, B]`, and concatenating
the batches in batch-index order reproduces the input exactly. -/
theorem partition_sizes_and_concat (accounts : List String) (B : Nat)
    (hB : 0 < B) :
    (∀ i (h : i + 1 < (makeBatches accounts B).length),
        ((makeBatches accounts B).get ⟨i, Nat.lt_of_succ_lt h⟩).length = B) ∧
    (∀ b ∈ makeBatches accounts B, 1 ≤ b.length ∧ b.length ≤ B) ∧
    (makeBatches accounts B).flatten = accounts := by
  refine ⟨?_, ?_, ?_⟩
  · intro i h
    have hlen : (makeBatches accounts B).length =
        (accounts.length + B - 1) / B := by
      simp [makeBatches, pyRange]
    have hget : (makeBatches accounts B).get ⟨i, Nat.lt_of_succ_lt h⟩ =
        (accounts.drop (B * i)).take B := by
      simp only [makeBatches, pyRange, List.get_eq_getElem, List.getElem_map]
      rw [List.getElem_range']
      simp
    rw [hget, List.length_take, List.length_drop]
    rw [hlen] at h
    have hdm := Nat.div_add_mod (accounts.length + B - 1) B
    have hml := Nat.mod_lt (accounts.length + B - 1) hB
    have hjk : B * (i + 2) ≤ B * ((accounts.length + B - 1) / B) :=
      Nat.mul_le_mul_left B (by omega)
    rw [Nat.mul_succ, Nat.mul_succ] at hjk
    omega
  · intro b hb
    rw [makeBatches, List.mem_map] at hb
    obtain ⟨i, hi, rfl⟩ := hb
    have hin := pyRange_mem_lt accounts.length B i hB hi
    rw [List.length_take, List.length_drop]
    omega
  · rw [makeBatches, pyRange]
    exact join_slices B hB _ accounts (pyRange_covers accounts.length B hB)

/-- `clean_batch` viewed through its total payload. -/
theorem cleanBatch_ok (accounts : List String) (sched : Nat → ApiResponse)
    (mr : Nat) (d : ℚ) :
    cleanBatch accounts sched mr d =
      Except.ok (cleanResults accounts sched mr d) := by
  obtain ⟨rs, h1, h2⟩ := retryGo_ok accounts sched mr d (List.range mr)
  have hcb : cleanBatch accounts sched mr d = Except.ok rs := h1
  rw [cleanResults, hcb]

/-- The payload of `clean_batch` has exactly one entry per account. -/
theorem cleanResults_length (accounts : List String)
    (sched : Nat → ApiResponse) (mr : Nat) (d : ℚ) :
    (cleanResults accounts sched mr d).length = accounts.length := by
  obtain ⟨rs, h1, h2⟩ := retryGo_ok accounts sched mr d (List.range mr)
  have hcb : cleanBatch accounts sched mr d = Except.ok rs := h1
  rw [cleanResults, hcb]
  exact h2

/-- `process_batch` always takes its success branch. -/
theorem processBatch_eq (sched : Nat → ApiResponse) (b : List String)
    (i mr : Nat) (d : ℚ) :
    processBatch sched b i mr d =
      ⟨i, b, some (cleanResults b sched mr d), none⟩ := by
  simp [processBatch, cleanBatch_ok]

/-- The aggregation loop's treatment of a success tuple. -/
theorem aggregateOne_success (i : Nat) (b : List String)
    (rs : List (Option Dict)) :
    aggregateOne ⟨i, b, some rs, none⟩ = some (batchRows b rs) := by
  simp [aggregateOne, errTruthy]

/-- Batch indices of the dispatched task results start at `i`. -/
theorem dispatchAll_index_ge (sched : Nat → Nat → ApiResponse)
    (mr : Nat) (d : ℚ) :
    ∀ bs i x, x ∈ dispatchAll sched mr d i bs → i ≤ x.batchIndex := by
  intro bs
  induction bs with
  | nil => intro i x hx; simp [dispatchAll] at hx
  | cons b bs ih =>
      intro i x hx
      rw [dispatchAll] at hx
      rcases List.mem_cons.mp hx with h1 | h2
      · rw [h1, processBatch_eq]
      · exact le_trans (by omega) (ih (i + 1) x h2)

/-- The canonical task results are strictly sorted by batch index. -/
theorem dispatchAll_pairwise (sched : Nat → Nat → ApiResponse)
    (mr : Nat) (d : ℚ) :
    ∀ bs i, (dispatchAll sched mr d i bs).Pairwise
      (fun x y => x.batchIndex < y.batchIndex) := by
  intro bs
  induction bs with
  | nil => intro i; simp [dispatchAll]
  | cons b bs ih =>
      intro i
      rw [dispatchAll, List.pairwise_cons]
      refine ⟨fun x hx => ?_, ih (i + 1)⟩
      rw [processBatch_eq]
      have hge := dispatchAll_index_ge sched mr d bs (i + 1) x hx
      show i < x.batchIndex
      omega

/-- Sorting an arbitrary completion order of the dispatched results
recovers the canonical batch-index order. -/
theorem sortByIndex_recovers (sched : Nat → Nat → ApiResponse)
    (mr : Nat) (d : ℚ) (bs : List (List String)) (i : Nat)
    (l : List BatchResult) (hperm : l.Perm (dispatchAll sched mr d i bs)) :
    sortByIndex l = dispatchAll sched mr d i bs :=
  sorted_perm_strict_eq (dispatchAll sched mr d i bs) (sortByIndex l)
    ((sortByIndex_perm l).trans hperm) (sortByIndex_pairwise l)
    (dispatchAll_pairwise sched mr d bs i)

/-- The aggregation loop over the canonical task results succeeds and
produces, batch by batch, the per-batch rows and failure lists. -/
theorem aggLoop_dispatchAll (sched : Nat → Nat → ApiResponse)
    (mr : Nat) (d : ℚ) :
    ∀ bs i, aggLoop (dispatchAll sched mr d i bs) =
      some ((pipeRowsFrom sched mr d i bs).flatten,
            (pipeFailsFrom sched mr d i bs).flatten) := by
  intro bs
  induction bs with
  | nil => intro i; simp [dispatchAll, aggLoop, pipeRowsFrom, pipeFailsFrom]
  | cons b bs ih =>
      intro i
      rw [dispatchAll, processBatch_eq]
      rw [aggLoop, aggregateOne_success, ih (i + 1)]
      simp [pipeRowsFrom, pipeFailsFrom]

/-- Every row the success branch produces corresponds to its record:
placeholder for `None`/empty results, tagged structured result
otherwise. -/
theorem batchRows_forall₂ :
    ∀ (b : List String) (rs : List (Option Dict)), rs.length = b.length →
      List.Forall₂ rowCorresponds b (batchRows b rs).1 := by
  intro b
  induction b with
  | nil =>
      intro rs h
      simp [batchRows]
  | cons acc b ih =>
      intro rs h
      cases rs with
      | nil => simp at h
      | cons r rs' =>
          have hh : (batchRows (acc :: b) (r :: rs')).1 =
              (recordRow acc r).1 :: (batchRows b rs').1 := by
            simp [batchRows]
          rw [hh]
          refine List.Forall₂.cons ?_ (ih rs' (by simpa using h))
          cases r with
          | none => exact Or.inl rfl
          | some dct =>
              cases hq : dct.isEmpty with
              | true => exact Or.inl (by simp [recordRow, hq])
              | false => exact Or.inr ⟨dct, by simp [recordRow, hq]⟩

/-- The whole canonical AggregatedResult corresponds record by record
to the concatenation of the batches. -/
theorem pipeRows_forall₂ (sched : Nat → Nat → ApiResponse) (mr : Nat)
    (d : ℚ) :
    ∀ bs i, List.Forall₂ rowCorresponds bs.flatten
      (pipeRowsFrom sched mr d i bs).flatten := by
  intro bs
  induction bs with
  | nil => intro i; simp [pipeRowsFrom]
  | cons b bs ih =>
      intro i
      rw [pipeRowsFrom, List.flatten_cons, List.flatten_cons]
      exact List.rel_append
        (batchRows_forall₂ b _ (cleanResults_length b (sched i) mr d))
        (ih (i + 1))

/-- C1: for every input, every service behaviour and every completion
order (any permutation of the dispatched batch results), the
aggregation of batch_clean.py lines 95-114 succeeds, its
AggregatedResult has exactly one row per input record, and the row at
every position `i` corresponds to input record `i` — it is either that
record's structured result tagged with the original string, or the
failure placeholder holding the original string. -/
theorem aggregation_order_preserving (accounts : List String) (B : Nat)
    (sched : Nat → Nat → ApiResponse) (mr : Nat) (d : ℚ) (hB : 0 < B)
    (l : List BatchResult)
    (hperm : l.Perm (canonicalResults accounts B sched mr d)) :
    ∃ agg manifest, aggregate l = some (agg, manifest) ∧
      agg.length = accounts.length ∧
      ∀ i (h1 : i < accounts.length) (h2 : i < agg.length),
        rowCorresponds (accounts.get ⟨i, h1⟩) (agg.get ⟨i, h2⟩) := by
  have hsort : sortByIndex l =
      dispatchAll sched mr d 0 (makeBatches accounts B) :=
    sortByIndex_recovers sched mr d (makeBatches accounts B) 0 l hperm
  have hagg : aggregate l =
      some ((pipeRowsFrom sched mr d 0 (makeBatches accounts B)).flatten,
            (pipeFailsFrom sched mr d 0 (makeBatches accounts B)).flatten) := by
    rw [aggregate, hsort, aggLoop_dispatchAll]
  have hflat : (makeBatches accounts B).flatten = accounts := by
    rw [makeBatches, pyRange]
    exact join_slices B hB _ accounts (pyRange_covers accounts.length B hB)
  have hcorr : List.Forall₂ rowCorresponds accounts
      (pipeRowsFrom sched mr d 0 (makeBatches accounts B)).flatten := by
    nth_rewrite 1 [← hflat]
    exact pipeRows_forall₂ sched mr d (makeBatches accounts B) 0
  exact ⟨_, _, hagg, hcorr.length_eq.symm, fun i h1 h2 => hcorr.get h1 h2⟩

/-- A first attempt that returns a correctly-sized list ends the retry
loop at once with that list. -/
theorem retry_first_success (accounts : List String)
    (rs : List (Option Dict)) (sched : Nat → ApiResponse) (mr : Nat)
    (d : ℚ) (hmr : 1 ≤ mr) (h0 : sched 0 = ApiResponse.list rs)
    (hlen : rs.length = accounts.length) :
    callApiWithRetry accounts sched mr d =
      ([Event.callEv 0], Except.ok rs) := by
  rw [callApiWithRetry, List.range_eq_range',
    show mr = (mr - 1) + 1 by omega, List.range'_succ]
  simp [retryGo, h0, callApi, hlen]

/-- A successful batch whose per-record results are all non-null,
non-empty dicts contributes no failed accounts. -/
theorem batchRows_fails_nil :
    ∀ (b : List String) (rs : List (Option Dict)),
      (∀ r ∈ rs, ∃ dct, r = some dct ∧ dct.isEmpty = false) →
      (batchRows b rs).2 = [] := by
  intro b
  induction b with
  | nil => intro rs h; simp [batchRows]
  | cons acc b ih =>
      intro rs h
      cases rs with
      | nil => simp [batchRows]
      | cons r rs' =>
          have hh : (batchRows (acc :: b) (r :: rs')).2 =
              ((recordRow acc r).2.toList ++ (batchRows b rs').2) := by
            cases hr : (recordRow acc r).2 <;> simp [batchRows, hr]
          rw [hh, ih rs' (fun x hx => h x (List.mem_cons_of_mem r hx))]
          obtain ⟨dct, rfl, hq⟩ := h r (List.mem_cons_self r rs')
          simp [recordRow, hq]

/-- `clean_batch` payload when the first attempt already returns a
correctly-sized list. -/
theorem cleanResults_first_success (accounts : List String)
    (rs : List (Option Dict)) (sched : Nat → ApiResponse) (mr : Nat)
    (d : ℚ) (hmr : 1 ≤ mr) (h0 : sched 0 = ApiResponse.list rs)
    (hlen : rs.length = accounts.length) :
    cleanResults accounts sched mr d = rs := by
  have h := retry_first_success accounts rs sched mr d hmr h0 hlen
  simp only [cleanResults, cleanBatch, h]

/-- If every batch's first attempt succeeds with a correctly-sized,
all-good result list, no batch contributes failed accounts. -/
theorem pipeFails_nil (sched : Nat → Nat → ApiResponse) (mr : Nat)
    (d : ℚ) (hmr : 1 ≤ mr) :
    ∀ bs i,
      (∀ k (hk : k < bs.length), ∃ rs,
        sched (i + k) 0 = ApiResponse.list rs ∧
        rs.length = (bs.get ⟨k, hk⟩).length ∧
        ∀ r ∈ rs, ∃ dct, r = some dct ∧ dct.isEmpty = false) →
      (pipeFailsFrom sched mr d i bs).flatten = [] := by
  intro bs
  induction bs with
  | nil => intro i h; simp [pipeFailsFrom]
  | cons b bs ih =>
      intro i h
      obtain ⟨rs, hs0, hsl, hgood⟩ := h 0 (by simp)
      rw [Nat.add_zero] at hs0
      have hcr : cleanResults b (sched i) mr d = rs :=
        cleanResults_first_success b rs (sched i) mr d hmr hs0
          (by simpa using hsl)
      rw [pipeFailsFrom, List.flatten_cons, hcr,
        batchRows_fails_nil b rs hgood, List.nil_append]
      refine ih (i + 1) (fun k hk => ?_)
      have h2 := h (k + 1) (Nat.succ_lt_succ hk)
      rw [show i + (k + 1) = i + 1 + k by omega] at h2
      simpa using h2

/-- C9 (amended): if every batch's transform call succeeds on its first
attempt with a correctly-sized result list all of whose entries are
non-null, non-empty structured results, the FailureManifest is empty. -/
theorem all_success_manifest_empty (accounts : List String) (B : Nat)
    (sched : Nat → Nat → ApiResponse) (mr : Nat) (d : ℚ) (hmr : 1 ≤ mr)
    (hgood : ∀ k (hk : k < (makeBatches accounts B).length), ∃ rs,
      sched k 0 = ApiResponse.list rs ∧
      rs.length = ((makeBatches accounts B).get ⟨k, hk⟩).length ∧
      ∀ r ∈ rs, ∃ dct, r = some dct ∧ dct.isEmpty = false) :
    ∃ agg, runPipeline accounts B sched mr d = some (agg, []) := by
  have hsort : sortByIndex (canonicalResults accounts B sched mr d) =
      dispatchAll sched mr d 0 (makeBatches accounts B) :=
    sortByIndex_recovers sched mr d (makeBatches accounts B) 0 _
      (List.Perm.refl _)
  have hagg : runPipeline accounts B sched mr d =
      some ((pipeRowsFrom sched mr d 0 (makeBatches accounts B)).flatten,
            (pipeFailsFrom sched mr d 0 (makeBatches accounts B)).flatten) := by
    rw [runPipeline, aggregate, hsort, aggLoop_dispatchAll]
  have hf : (pipeFailsFrom sched mr d 0 (makeBatches accounts B)).flatten
      = [] := by
    refine pipeFails_nil sched mr d hmr (makeBatches accounts B) 0
      (fun k hk => ?_)
    simpa using hgood k hk
  exact ⟨_, by rw [hagg, hf]⟩

/-- C7 (amended): batch_clean.py performs no configuration validation.
A batch size of exactly 0 makes `range(0, n, 0)` raise an uncaught
`ValueError` before any batch exists (the run aborts before dispatch),
while a negative batch size silently yields an empty batch list and the
run completes, dispatching nothing and dropping every record. -/
theorem batch_size_nonpositive_behaviour (accounts : List String)
    (B : Int) :
    (B = 0 → makeBatchesZ accounts B = none) ∧
    (B < 0 → makeBatchesZ accounts B = some []) := by
  constructor
  · intro h; rw [makeBatchesZ, if_pos h]
  · intro h; rw [makeBatchesZ, if_neg (by omega), if_pos h]

/-- Replacing one element changes `countP` by the predicate values of
the old and new elements. -/
theorem countP_set (p : Phase → Bool) :
    ∀ (ps : List Phase) (t : Nat) (v ph : Phase), ps.get? t = some ph →
      (ps.set t v).countP p + (if p ph then 1 else 0) =
        ps.countP p + (if p v then 1 else 0) := by
  intro ps
  induction ps with
  | nil => intro t v ph h; simp at h
  | cons q qs ih =>
      intro t v ph h
      cases t with
      | zero =>
          simp only [List.get?] at h
          cases h
          simp only [List.set, List.countP_cons]
          omega
      | succ t' =>
          simp only [List.get?] at h
          simp only [List.set, List.countP_cons]
          have := ih t' v ph h
          omega

/-- An element seen at an index contributes to a positive count. -/
theorem countP_pos_of_get? (p : Phase → Bool) (ps : List Phase) (t : Nat)
    (ph : Phase) (h : ps.get? t = some ph) (hp : p ph = true) :
    1 ≤ ps.countP p :=
  List.countP_pos_iff.mpr ⟨ph, List.get?_mem h, hp⟩

/-- One scheduler step preserves the semaphore invariant: the holder
count equals the number of tasks between `acquire` and the end of their
retry loop, and never exceeds the bound. -/
theorem schedStep_preserves (cfg : SchedCfg) (s s' : SchedState)
    (a : SchedAction)
    (hInv : s.holders = countActive s.phases ∧ s.holders ≤ cfg.bound)
    (hstep : schedStep cfg s a = some s') :
    s'.holders = countActive s'.phases ∧ s'.holders ≤ cfg.bound := by
  obtain ⟨hcnt, hbd⟩ := hInv
  cases a with
  | acquire t =>
      simp only [schedStep] at hstep
      cases hget : s.phases.get? t with
      | none => rw [hget] at hstep; simp at hstep
      | some ph =>
          rw [hget] at hstep
          cases ph <;> simp at hstep
          case waiting =>
            obtain ⟨hlt, hs'⟩ := hstep
            have hset := countP_set holdsSlot s.phases t
              (Phase.ready 0) Phase.waiting hget
            rw [← hs']
            simp only [countActive] at hcnt ⊢
            simp [holdsSlot] at hset
            omega
  | startCall t =>
      simp only [schedStep] at hstep
      cases hget : s.phases.get? t with
      | none => rw [hget] at hstep; simp at hstep
      | some ph =>
          rw [hget] at hstep
          cases ph <;> simp at hstep
          case ready a0 =>
            have hset := countP_set holdsSlot s.phases t
              (Phase.inCall a0) (Phase.ready a0) hget
            rw [← hstep]
            simp only [countActive] at hcnt ⊢
            simp [holdsSlot] at hset
            omega
  | endCall t =>
      simp only [schedStep] at hstep
      cases hget : s.phases.get? t with
      | none => rw [hget] at hstep; simp at hstep
      | some ph =>
          rw [hget] at hstep
          cases ph <;> simp at hstep
          case inCall a0 =>
            have hpos := countP_pos_of_get? holdsSlot
              s.phases t (Phase.inCall a0) hget (by simp [holdsSlot])
            simp only [countActive] at hcnt ⊢
            by_cases hr : cfg.callRaises t a0 = true
            · rw [if_pos hr] at hstep
              by_cases ha : a0 + 1 < cfg.maxRetries
              · rw [if_pos ha] at hstep
                have hset := countP_set holdsSlot s.phases t
                  (Phase.sleepBackoff a0) (Phase.inCall a0) hget
                have hs := Option.some.inj hstep
                rw [← hs]
                dsimp only
                simp [holdsSlot] at hset
                omega
              · rw [if_neg ha] at hstep
                have hset := countP_set holdsSlot s.phases t
                  Phase.finished (Phase.inCall a0) hget
                have hs := Option.some.inj hstep
                rw [← hs]
                dsimp only
                simp [holdsSlot] at hset
                omega
            · rw [if_neg hr] at hstep
              have hset := countP_set holdsSlot s.phases t
                Phase.finished (Phase.inCall a0) hget
              have hs := Option.some.inj hstep
              rw [← hs]
              dsimp only
              simp [holdsSlot] at hset
              omega
  | wake t =>
      simp only [schedStep] at hstep
      cases hget : s.phases.get? t with
      | none => rw [hget] at hstep; simp at hstep
      | some ph =>
          rw [hget] at hstep
          cases ph <;> simp at hstep
          case sleepBackoff a0 =>
            have hset := countP_set holdsSlot s.phases t
              (Phase.ready (a0 + 1)) (Phase.sleepBackoff a0) hget
            rw [← hstep]
            simp only [countActive] at hcnt ⊢
            simp [holdsSlot] at hset
            omega

/-- No task is active in the initial state. -/
theorem countActive_init (cfg : SchedCfg) :
    countActive (initState cfg).phases = 0 := by
  rw [initState, countActive]
  induction cfg.tasks with
  | zero => simp
  | succ n ih =>
      rw [List.replicate_succ, List.countP_cons]
      simp [holdsSlot, ih]

/-- The semaphore invariant holds along any run prefix. -/
theorem schedRun_inv (cfg : SchedCfg) :
    ∀ (acts : List SchedAction) (s0 s : SchedState),
      s0.holders = countActive s0.phases ∧ s0.holders ≤ cfg.bound →
      acts.foldlM (schedStep cfg) s0 = some s →
      s.holders = countActive s.phases ∧ s.holders ≤ cfg.bound := by
  intro acts
  induction acts with
  | nil =>
      intro s0 s h0 hrun
      rw [List.foldlM_nil] at hrun
      cases hrun
      exact h0
  | cons a as ih =>
      intro s0 s h0 hrun
      rw [List.foldlM_cons] at hrun
      cases h1 : schedStep cfg s0 a with
      | none => rw [h1] at hrun; simp at hrun
      | some s1 =>
          rw [h1] at hrun
          simp only [Option.bind_eq_bind, Option.some_bind] at hrun
          exact ih s1 s (schedStep_preserves cfg s0 s1 a h0 h1) hrun

/-- C8: under every scheduling of acquisitions, calls, failures,
backoff sleeps and retries, at no reachable instant are more than
`MAX_CONCURRENT_REQUESTS` tasks inside a `transform` (`_call_api`)
call. -/
theorem concurrency_bound_holds (cfg : SchedCfg)
    (acts : List SchedAction) (s : SchedState)
    (h : schedRun cfg acts = some s) :
    countInCall s.phases ≤ cfg.bound := by
  have hinv := schedRun_inv cfg acts (initState cfg) s
    ⟨by rw [countActive_init, initState], by simp [initState]⟩ h
  have hmono : countInCall s.phases ≤ countActive s.phases := by
    rw [countInCall, countActive]
    refine List.countP_mono_left (fun p _ hp => ?_)
    cases p <;> simp [isInCall, holdsSlot] at hp ⊢
  omega

/-- C3 (amended): in every reachable state the number of semaphore
slots held equals the number of tasks anywhere between `acquire` and
the end of their retry loop (`ready`, `inCall` or `sleepBackoff`): the
slot is taken once per batch before its first attempt and held across
the whole retry lifetime — in particular a task sleeping out a backoff
delay still occupies its slot. -/
theorem semaphore_held_across_retry (cfg : SchedCfg)
    (acts : List SchedAction) (s : SchedState)
    (h : schedRun cfg acts = some s) :
    s.holders = countActive s.phases :=
  (schedRun_inv cfg acts (initState cfg) s
    ⟨by rw [countActive_init, initState], by simp [initState]⟩ h).1

/-- C2 counterexample: a wrong-length response on the first attempt is
NOT treated like a `ServiceError`: the loop performs exactly one call
(no backoff sleep, no second attempt — even though the second attempt
would have returned a valid result) and returns `[None]`, while a
genuinely raising service produces 9 events (5 calls and 4 sleeps). -/
theorem wrong_length_counterexample :
    callApiWithRetry ["aaaaaa-a"] exSchedWrongLen 5 2 =
      ([Event.callEv 0], Except.ok [none]) ∧
    (callApiWithRetry ["aaaaaa-a"] exSchedFail 5 2).1.length = 9 :=
  ⟨rfl, rfl⟩

/-- C2 (amended) witness at a concrete input. -/
theorem wrong_length_no_retry_witness :
    (1 ≤ 5 ∧ exSchedWrongLen 0 = ApiResponse.list [] ∧
      ([] : List (Option Dict)).length ≠ (["aaaaaa-a"] : List String).length) ∧
    callApiWithRetry ["aaaaaa-a"] exSchedWrongLen 5 2 =
      ([Event.callEv 0], Except.ok (List.replicate 1 none)) :=
  ⟨⟨by decide, rfl, by decide⟩,
   wrong_length_no_retry ["aaaaaa-a"] [] exSchedWrongLen 5 2 (by decide)
     rfl (by decide)⟩

/-- C3 counterexample: with semaphore bound 1, after task 0 acquires,
calls, fails and enters its backoff sleep, the reached state keeps
`holders = 1` while task 0 sleeps, and task 1's `acquire` is NOT
enabled — a batch waiting out a backoff delay does occupy the
concurrency slot, contradicting release-after-each-call. -/
theorem slot_held_during_backoff_counterexample :
    schedRun exCfg exActs =
      some ⟨[Phase.sleepBackoff 0, Phase.waiting], 1⟩ ∧
    schedStep exCfg ⟨[Phase.sleepBackoff 0, Phase.waiting], 1⟩
      (SchedAction.acquire 1) = none :=
  ⟨rfl, rfl⟩

/-- C3 (amended) witness at a concrete run. -/
theorem semaphore_held_across_retry_witness :
    schedRun exCfg exActs =
      some ⟨[Phase.sleepBackoff 0, Phase.waiting], 1⟩ ∧
    (⟨[Phase.sleepBackoff 0, Phase.waiting], 1⟩ : SchedState).holders =
      countActive (⟨[Phase.sleepBackoff 0, Phase.waiting], 1⟩ :
        SchedState).phases :=
  ⟨rfl, semaphore_held_across_retry exCfg exActs
    ⟨[Phase.sleepBackoff 0, Phase.waiting], 1⟩ rfl⟩

/-- C4 witness at a concrete input (`MAX_RETRIES = 5`,
`RETRY_DELAY = 2` as in config.py). -/
theorem retry_count_and_backoff_witness :
    (1 ≤ 5 ∧ (0 : ℚ) ≤ 2) ∧
    ((callApiWithRetry exAccounts exSchedFail 5 2).1 =
        specRetryTrace 2 0 5 ∧
      callAttempts (callApiWithRetry exAccounts exSchedFail 5 2).1 =
        List.range 5 ∧
      sleepDurations (callApiWithRetry exAccounts exSchedFail 5 2).1 =
        (List.range 4).map (fun k => (2 : ℚ) * 2 ^ k) ∧
      (sleepDurations
        (callApiWithRetry exAccounts exSchedFail 5 2).1).Pairwise
        (· ≤ ·)) :=
  ⟨⟨by decide, zero_le_two⟩,
   retry_count_and_backoff exAccounts exSchedFail 5 2 (by decide)
     zero_le_two (fun k _ => ⟨"boom", rfl⟩)⟩

/-- C5 witness at a concrete input (batch size 2, three records). -/
theorem partition_sizes_and_concat_witness :
    0 < 2 ∧ (makeBatches exAccounts 2).flatten = exAccounts :=
  ⟨by decide, (partition_sizes_and_concat exAccounts 2 (by decide)).2.2⟩

/-- C6 counterexample: after every attempt of a batch raises, the
outcome handed to the aggregator is NOT the batch-level
`Failure(reason)` variant: its `error` slot is `None` and its `results`
slot is the success-shaped `[None]` list, with the reason discarded. -/
theorem failure_outcome_counterexample :
    (processBatch exSchedFail ["aaaaaa-a"] 0 5 2).error = none ∧
    (processBatch exSchedFail ["aaaaaa-a"] 0 5 2).results = some [none] :=
  ⟨rfl, rfl⟩

/-- C6 (amended) witness at a concrete input. -/
theorem retry_exhaustion_returns_value_witness :
    (1 ≤ 5) ∧
    (cleanBatch ["aaaaaa-a"] exSchedFail 5 2 =
        Except.ok (List.replicate 1 none) ∧
      ∀ i, processBatch exSchedFail ["aaaaaa-a"] i 5 2 =
        ⟨i, ["aaaaaa-a"], some (List.replicate 1 none), none⟩) :=
  ⟨by decide,
   retry_exhaustion_returns_value ["aaaaaa-a"] exSchedFail 5 2 (by decide)
     (fun k _ => ⟨"boom", rfl⟩)⟩

/-- C7 counterexample: a negative batch size does not fail at all —
`range(0, n, -1)` is empty, so the run builds zero batches, dispatches
nothing, and the aggregation completes with empty outputs instead of
rejecting the configuration. -/
theorem no_invalid_configuration_counterexample :
    makeBatchesZ ["aaaaaa-a", "bbbbbb-b"] (-1) = some [] ∧
    aggregate (dispatchAll (fun _ _ => ApiResponse.exn "boom") 5 2 0 [])
      = some ([], []) :=
  ⟨rfl, rfl⟩

/-- C7 (amended) witness at concrete batch sizes 0 and -1. -/
theorem batch_size_nonpositive_behaviour_witness :
    makeBatchesZ ["aaaaaa-a"] 0 = none ∧
    makeBatchesZ ["aaaaaa-a"] (-1) = some [] :=
  ⟨(batch_size_nonpositive_behaviour ["aaaaaa-a"] 0).1 rfl,
   (batch_size_nonpositive_behaviour ["aaaaaa-a"] (-1)).2 (by decide)⟩

/-- C8 witness at a concrete run. -/
theorem concurrency_bound_holds_witness :
    schedRun exCfg exActs =
      some ⟨[Phase.sleepBackoff 0, Phase.waiting], 1⟩ ∧
    countInCall [Phase.sleepBackoff 0, Phase.waiting] ≤ exCfg.bound :=
  ⟨rfl, concurrency_bound_holds exCfg exActs
    ⟨[Phase.sleepBackoff 0, Phase.waiting], 1⟩ rfl⟩

/-- C9 counterexample: every transform call succeeds on its first
attempt with a correctly-sized result list (one entry for the one
record), yet the FailureManifest is not empty, because that entry is
null. -/
theorem null_results_manifest_counterexample :
    exSchedNull 0 0 = ApiResponse.list [none] ∧
    ([none] : List (Option Dict)).length = 1 ∧
    runPipeline ["aaaaaa-a"] 1 exSchedNull 5 2 =
      some ([[(origKey, "aaaaaa-a")]], ["aaaaaa-a"]) ∧
    (["aaaaaa-a"] : List String) ≠ [] :=
  ⟨rfl, rfl, rfl, by decide⟩

/-- C9 (amended) witness at a concrete input. -/
theorem all_success_manifest_empty_witness :
    ∃ agg, runPipeline exAccounts 2 exSchedGood 5 2 = some (agg, []) := by
  refine all_success_manifest_empty exAccounts 2 exSchedGood 5 2
    (by decide) ?_
  intro k hk
  have hk2 : k < 2 := by
    have hlen : (makeBatches exAccounts 2).length = 2 := rfl
    omega
  interval_cases k
  · refine ⟨[some [("名称", "a")], some [("名称", "b")]], rfl, rfl, ?_⟩
    intro r hr
    fin_cases hr
    · exact ⟨[("名称", "a")], rfl, rfl⟩
    · exact ⟨[("名称", "b")], rfl, rfl⟩
  · refine ⟨[some [("名称", "c")]], rfl, rfl, ?_⟩
    intro r hr
    fin_cases hr
    exact ⟨[("名称", "c")], rfl, rfl⟩

/-- C1 witness at a concrete input: batch size 2, three records, mixed
outcomes, with the gathered results supplied in reversed completion
order. -/
theorem aggregation_order_preserving_witness :
    0 < 2 ∧
    ∃ agg manifest,
      aggregate ((canonicalResults exAccounts 2 exSchedMixed 5 2).reverse)
        = some (agg, manifest) ∧
      agg.length = exAccounts.length ∧
      ∀ i (h1 : i < exAccounts.length) (h2 : i < agg.length),
        rowCorresponds (exAccounts.get ⟨i, h1⟩) (agg.get ⟨i, h2⟩) :=
  ⟨by decide,
   aggregation_order_preserving exAccounts 2 exSchedMixed 5 2 (by decide)
     _ (List.reverse_perm _)⟩
